import Mathlib

/-!
Verification of the Dusty notification daemon (src/main.rs).

The daemon keeps a registry of notifications: a `HashMap<u32, Notification>`
and a `u32` counter seeded at 1.  Four bus-exposed operations read or mutate
this state: `notify`, `get_capabilities`, `close_notification` and
`get_server_information`.  We embed the state shallowly: the hash map becomes
an association list (its keys unique in every reachable state), `u32` values
become `Nat` with arithmetic taken modulo `2^32` where the source wraps, and
`i32` becomes `Int`.
-/

namespace Dusty

/-- `u32::MAX + 1`: the modulus of the daemon's 32-bit id counter. -/
def U32_MOD : Nat := 4294967296

/-- One notification record, as in `struct Notification` in src/main.rs. -/
structure Notification where
  id : Nat
  app_name : String
  summary : String
  body : String
  icon : String
  expire_timeout : Int
  deriving DecidableEq, Repr

/-- The daemon state, as in `struct NotificationDaemon`: the id→record map
(modelled as an association list with unique keys) and the `next_id`
counter. -/
structure NotificationDaemon where
  notifications : List (Nat × Notification)
  next_id : Nat
  deriving DecidableEq, Repr

/-- `HashMap::get`: the value stored under `k`, if any. -/
def findEntry (m : List (Nat × Notification)) (k : Nat) : Option Notification :=
  match m with
  | [] => none
  | (k', v') :: rest => if k' = k then some v' else findEntry rest k

/-- `HashMap::insert`: overwrite the entry under `k` if present, otherwise
append a new one. -/
def insertEntry (m : List (Nat × Notification)) (k : Nat) (v : Notification) :
    List (Nat × Notification) :=
  match m with
  | [] => [(k, v)]
  | (k', v') :: rest =>
    if k' = k then (k, v) :: rest else (k', v') :: insertEntry rest k v

/-- `HashMap::remove`: drop the entry under `k` if present. -/
def eraseEntry (m : List (Nat × Notification)) (k : Nat) :
    List (Nat × Notification) :=
  match m with
  | [] => []
  | (k', v') :: rest => if k' = k then rest else (k', v') :: eraseEntry rest k

/-- `NotificationDaemon::new`: empty map, counter seeded at 1. -/
def NotificationDaemon.new : NotificationDaemon :=
  { notifications := [], next_id := 1 }

/-- `NotificationDaemon::next_id` (named `allocate_id` here because the Rust
method shadows the field): return the current counter, then advance it by one
with 32-bit wraparound, forcing it to 1 if the advanced value is 0. -/
def NotificationDaemon.allocate_id (d : NotificationDaemon) :
    Nat × NotificationDaemon :=
  let current_id := d.next_id
  let advanced := (d.next_id + 1) % U32_MOD
  let advanced := if advanced = 0 then 1 else advanced
  (current_id, { d with next_id := advanced })

/-- `NotificationDaemon::get_stats`: (number of tracked records, counter). -/
def NotificationDaemon.get_stats (d : NotificationDaemon) : Nat × Nat :=
  (d.notifications.length, d.next_id)

/-- A typed hint value (`zbus::zvariant::Value`); `notify` only inspects
hints for logging, so the daemon state never depends on them. -/
inductive HintValue where
  | byte (b : Nat)
  | int32 (n : Int)
  | str (s : String)
  | boolean (b : Bool)
  | other
  deriving DecidableEq, Repr

/-- The full argument list of the `Notify` bus method. -/
structure NotifyArgs where
  app_name : String
  replaces_id : Nat
  app_icon : String
  summary : String
  body : String
  actions : List String
  hints : List (String × HintValue)
  expire_timeout : Int
  deriving DecidableEq, Repr

/-- `NotificationDaemon::notify`: the effective id is `replaces_id` when
positive, else a freshly allocated id; the record built from the supplied
fields is inserted under that id, which is returned.  `actions` and `hints`
are only logged, never stored. -/
def NotificationDaemon.notify (d : NotificationDaemon) (a : NotifyArgs) :
    Nat × NotificationDaemon :=
  let p := if a.replaces_id > 0 then (a.replaces_id, d) else d.allocate_id
  let id := p.1
  let d1 := p.2
  let n : Notification :=
    { id := id, app_name := a.app_name, summary := a.summary, body := a.body,
      icon := a.app_icon, expire_timeout := a.expire_timeout }
  (id, { d1 with notifications := insertEntry d1.notifications id n })

/-- `NotificationDaemon::get_capabilities`: a fixed list, no state read. -/
def NotificationDaemon.get_capabilities (_d : NotificationDaemon) :
    List String :=
  ["body", "body-markup", "actions", "persistence"]

/-- `NotificationDaemon::close_notification`: remove the record under `id`
if present; whether one existed only selects a log line. -/
def NotificationDaemon.close_notification (d : NotificationDaemon)
    (id : Nat) : NotificationDaemon :=
  { d with notifications := eraseEntry d.notifications id }

/-- `NotificationDaemon::get_server_information`: a fixed 4-tuple. -/
def NotificationDaemon.get_server_information (_d : NotificationDaemon) :
    String × String × String × String :=
  ("Dusty", "fullzer4", "0.1.0", "1.2")

/-- One incoming remote call on the `org.freedesktop.Notifications`
interface. -/
inductive Request where
  | notifyReq (a : NotifyArgs)
  | getCapabilities
  | closeNotification (id : Nat)
  | getServerInformation
  deriving DecidableEq, Repr

/-- A bus reply.  `failure` models a D-Bus error reply, which the interface
never produces. -/
inductive Reply where
  | notifyReply (id : Nat)
  | capabilities (caps : List String)
  | closed
  | serverInfo (info : String × String × String × String)
  | failure (msg : String)
  deriving DecidableEq, Repr

/-- Whether a reply is a D-Bus error reply. -/
def Reply.isFailure : Reply → Bool
  | .failure _ => true
  | _ => false

/-- Whether a reply has the success shape mandated for the request. -/
def replyMatches : Request → Reply → Bool
  | .notifyReq _, .notifyReply _ => true
  | .getCapabilities, .capabilities _ => true
  | .closeNotification _, .closed => true
  | .getServerInformation, .serverInfo _ => true
  | _, _ => false

/-- Dispatch one remote call to its handler, as the interface impl does. -/
def NotificationDaemon.handle (d : NotificationDaemon) (r : Request) :
    Reply × NotificationDaemon :=
  match r with
  | .notifyReq a =>
    let p := d.notify a
    (.notifyReply p.1, p.2)
  | .getCapabilities => (.capabilities d.get_capabilities, d)
  | .closeNotification id => (.closed, d.close_notification id)
  | .getServerInformation => (.serverInfo d.get_server_information, d)

/-- Run a sequence of remote calls from the freshly constructed daemon. -/
def execTrace (reqs : List Request) : NotificationDaemon :=
  reqs.foldl (fun d r => (d.handle r).2) NotificationDaemon.new

/-- Run a list of `Notify` calls sequentially, collecting the returned ids. -/
def notifySeq (d : NotificationDaemon) (as : List NotifyArgs) :
    List Nat × NotificationDaemon :=
  match as with
  | [] => ([], d)
  | a :: rest =>
    let p := d.notify a
    let q := notifySeq p.2 rest
    (p.1 :: q.1, q.2)

/-- The record `notify` builds from its effective id and arguments. -/
def mkRecord (id : Nat) (a : NotifyArgs) : Notification :=
  { id := id, app_name := a.app_name, summary := a.summary, body := a.body,
    icon := a.app_icon, expire_timeout := a.expire_timeout }

/-- A plain `Notify` argument list with `replaces_id = 0`. -/
def sampleArgs : NotifyArgs :=
  { app_name := "Mail", replaces_id := 0, app_icon := "icon",
    summary := "New message", body := "You have mail", actions := [],
    hints := [], expire_timeout := -1 }

/-- A `Notify` argument list that claims id 1 via `replaces_id`. -/
def replaceArgs : NotifyArgs :=
  { app_name := "X", replaces_id := 1, app_icon := "icon",
    summary := "Reused id", body := "Body", actions := [],
    hints := [], expire_timeout := -1 }

/-- A sample stored record, used to build concrete registry states. -/
def sampleRecord : Notification :=
  { id := 3, app_name := "Mail", summary := "s", body := "b", icon := "i",
    expire_timeout := -1 }

/-- The representation invariant of the daemon state: the counter is a
nonzero `u32` value and the map has unique, nonzero keys (as a `HashMap`
keyed by allocator- or client-supplied nonzero ids does). -/
def GoodState (d : NotificationDaemon) : Prop :=
  1 ≤ d.next_id ∧ d.next_id < U32_MOD ∧
  (d.notifications.map Prod.fst).Nodup ∧
  ∀ p ∈ d.notifications, 1 ≤ p.1

/-! ### Association-list lemmas (HashMap semantics) -/

theorem findEntry_insertEntry_self (m : List (Nat × Notification)) (k : Nat)
    (v : Notification) : findEntry (insertEntry m k v) k = some v := by
  induction m with
  | nil => simp [insertEntry, findEntry]
  | cons hd tl ih =>
    by_cases h : hd.1 = k
    · simp [insertEntry, findEntry, h]
    · simp only [insertEntry, findEntry]
      rw [if_neg h, findEntry, if_neg h]
      exact ih

theorem findEntry_insertEntry_ne (m : List (Nat × Notification)) (k j : Nat)
    (v : Notification) (h : j ≠ k) :
    findEntry (insertEntry m k v) j = findEntry m j := by
  induction m with
  | nil =>
    simp only [insertEntry, findEntry]
    rw [if_neg (Ne.symm h)]
  | cons hd tl ih =>
    by_cases hk : hd.1 = k
    · simp only [insertEntry, if_pos hk, findEntry]
      rw [if_neg (Ne.symm h), if_neg (fun hj : hd.1 = j => h (hj.symm.trans hk))]
    · simp only [insertEntry, if_neg hk, findEntry]
      by_cases hj : hd.1 = j
      · rw [if_pos hj, if_pos hj]
      · rw [if_neg hj, if_neg hj]
        exact ih

theorem length_insertEntry_of_none (m : List (Nat × Notification)) (k : Nat)
    (v : Notification) (h : findEntry m k = none) :
    (insertEntry m k v).length = m.length + 1 := by
  induction m with
  | nil => simp [insertEntry]
  | cons hd tl ih =>
    simp only [findEntry] at h
    by_cases hk : hd.1 = k
    · rw [if_pos hk] at h; exact absurd h (by simp)
    · rw [if_neg hk] at h
      simp only [insertEntry, if_neg hk, List.length_cons]
      rw [ih h]

theorem length_insertEntry_of_some (m : List (Nat × Notification)) (k : Nat)
    (v w : Notification) (h : findEntry m k = some w) :
    (insertEntry m k v).length = m.length := by
  induction m with
  | nil => simp [findEntry] at h
  | cons hd tl ih =>
    simp only [findEntry] at h
    by_cases hk : hd.1 = k
    · simp [insertEntry, hk]
    · rw [if_neg hk] at h
      simp only [insertEntry, if_neg hk, List.length_cons]
      rw [ih h]

theorem eraseEntry_of_none (m : List (Nat × Notification)) (k : Nat)
    (h : findEntry m k = none) : eraseEntry m k = m := by
  induction m with
  | nil => rfl
  | cons hd tl ih =>
    simp only [findEntry] at h
    by_cases hk : hd.1 = k
    · rw [if_pos hk] at h; exact absurd h (by simp)
    · rw [if_neg hk] at h
      simp only [eraseEntry, if_neg hk]
      rw [ih h]

theorem length_eraseEntry_of_some (m : List (Nat × Notification)) (k : Nat)
    (w : Notification) (h : findEntry m k = some w) :
    (eraseEntry m k).length + 1 = m.length := by
  induction m with
  | nil => simp [findEntry] at h
  | cons hd tl ih =>
    simp only [findEntry] at h
    by_cases hk : hd.1 = k
    · simp [eraseEntry, hk]
    · rw [if_neg hk] at h
      simp only [eraseEntry, if_neg hk, List.length_cons]
      rw [ih h]

theorem findEntry_eraseEntry_ne (m : List (Nat × Notification)) (k j : Nat)
    (h : j ≠ k) : findEntry (eraseEntry m k) j = findEntry m j := by
  induction m with
  | nil => rfl
  | cons hd tl ih =>
    by_cases hk : hd.1 = k
    · simp only [eraseEntry, if_pos hk, findEntry]
      rw [if_neg (fun hj : hd.1 = j => h (hj.symm.trans hk))]
    · simp only [eraseEntry, if_neg hk, findEntry]
      by_cases hj : hd.1 = j
      · rw [if_pos hj, if_pos hj]
      · rw [if_neg hj, if_neg hj]
        exact ih

theorem findEntry_eq_none_of_not_mem_keys (m : List (Nat × Notification))
    (k : Nat) (h : k ∉ m.map Prod.fst) : findEntry m k = none := by
  induction m with
  | nil => rfl
  | cons hd tl ih =>
    simp only [List.map_cons, List.mem_cons] at h
    push_neg at h
    simp only [findEntry]
    rw [if_neg (fun he => h.1 he.symm)]
    exact ih h.2

theorem findEntry_eraseEntry_self (m : List (Nat × Notification)) (k : Nat)
    (hnd : (m.map Prod.fst).Nodup) :
    findEntry (eraseEntry m k) k = none := by
  induction m with
  | nil => rfl
  | cons hd tl ih =>
    simp only [List.map_cons, List.nodup_cons] at hnd
    by_cases hk : hd.1 = k
    · simp only [eraseEntry, if_pos hk]
      exact findEntry_eq_none_of_not_mem_keys tl k (hk ▸ hnd.1)
    · simp only [eraseEntry, if_neg hk, findEntry, if_neg hk]
      exact ih hnd.2

/-! ### Unfolding lemmas for the daemon operations -/

theorem allocate_id_fst (d : NotificationDaemon) :
    (d.allocate_id).1 = d.next_id := rfl

theorem allocate_id_notifications (d : NotificationDaemon) :
    (d.allocate_id).2.notifications = d.notifications := rfl

theorem allocate_id_next (d : NotificationDaemon) (h : d.next_id + 1 < U32_MOD) :
    (d.allocate_id).2.next_id = d.next_id + 1 := by
  show (if (d.next_id + 1) % U32_MOD = 0 then 1 else (d.next_id + 1) % U32_MOD)
      = d.next_id + 1
  rw [Nat.mod_eq_of_lt h, if_neg (by omega)]

theorem notify_unfold (d : NotificationDaemon) (a : NotifyArgs) :
    (d.notify a).1 = (if a.replaces_id > 0 then a.replaces_id else d.next_id) ∧
    (d.notify a).2.notifications =
      insertEntry d.notifications (d.notify a).1 (mkRecord (d.notify a).1 a) ∧
    (d.notify a).2.next_id =
      (if a.replaces_id > 0 then d.next_id else (d.allocate_id).2.next_id) := by
  by_cases h : a.replaces_id > 0 <;>
    simp [NotificationDaemon.notify, NotificationDaemon.allocate_id, mkRecord, h]

/-- Claim C1: the id allocator never returns 0.  The counter starts at 1;
each `allocate_id` returns the current counter and advances it by one with
32-bit wraparound, forcing it back to 1 if the advanced value is 0; below
the wrap point the counter strictly increases, and at the maximum 32-bit
value the allocator wraps the counter to 1. -/
theorem allocate_id_spec (d : NotificationDaemon)
    (h1 : 1 ≤ d.next_id) (h2 : d.next_id < U32_MOD) :
    NotificationDaemon.new.next_id = 1 ∧
    (d.allocate_id).1 = d.next_id ∧
    (d.allocate_id).1 ≠ 0 ∧
    (1 ≤ (d.allocate_id).2.next_id ∧ (d.allocate_id).2.next_id < U32_MOD) ∧
    (d.next_id + 1 < U32_MOD → (d.allocate_id).2.next_id = d.next_id + 1) ∧
    (d.next_id = U32_MOD - 1 → (d.allocate_id).2.next_id = 1) := by
  have hfst : (d.allocate_id).1 = d.next_id := rfl
  have hnext : (d.allocate_id).2.next_id =
      if (d.next_id + 1) % U32_MOD = 0 then 1 else (d.next_id + 1) % U32_MOD :=
    rfl
  have hU : U32_MOD = 4294967296 := rfl
  by_cases hc : d.next_id + 1 < U32_MOD
  · rw [Nat.mod_eq_of_lt hc] at hnext
    rw [if_neg (by omega)] at hnext
    exact ⟨rfl, rfl, by omega, by omega, fun _ => hnext, fun hmax => by omega⟩
  · have hm : (d.next_id + 1) % U32_MOD = 0 := by
      have he : d.next_id + 1 = U32_MOD := by omega
      rw [he]
      exact Nat.mod_self _
    rw [hm, if_pos rfl] at hnext
    exact ⟨rfl, rfl, by omega, by omega, fun hcc => absurd hcc hc,
      fun _ => hnext⟩

/-- Witness for C1: concrete runs at counter 1 and at the 32-bit maximum. -/
theorem allocate_id_spec_witness :
    NotificationDaemon.new.next_id = 1 ∧
    ((⟨[], U32_MOD - 1⟩ : NotificationDaemon).allocate_id).2.next_id = 1 ∧
    ((⟨[], 1⟩ : NotificationDaemon).allocate_id).2.next_id =
      (⟨[], 1⟩ : NotificationDaemon).next_id + 1 :=
  ⟨(allocate_id_spec ⟨[], 1⟩ (by decide) (by decide)).1,
   (allocate_id_spec ⟨[], U32_MOD - 1⟩ (by decide) (by decide)).2.2.2.2.2 rfl,
   (allocate_id_spec ⟨[], 1⟩ (by decide) (by decide)).2.2.2.2.1 (by decide)⟩

/-- Claim C3: a Notify call with a non-zero `replaces_id` that is not
currently tracked returns `replaces_id` verbatim (no existence check),
creates a new record under it holding the supplied fields, increases the
entry count by one, and leaves the allocation counter unchanged. -/
theorem notify_untracked_replaces_spec (d : NotificationDaemon)
    (a : NotifyArgs) (hpos : 0 < a.replaces_id)
    (hnone : findEntry d.notifications a.replaces_id = none) :
    (d.notify a).1 = a.replaces_id ∧
    findEntry (d.notify a).2.notifications a.replaces_id =
      some { id := a.replaces_id, app_name := a.app_name,
             summary := a.summary, body := a.body, icon := a.app_icon,
             expire_timeout := a.expire_timeout } ∧
    (d.notify a).2.notifications.length = d.notifications.length + 1 ∧
    (d.notify a).2.next_id = d.next_id := by
  have e1 : (d.notify a).1 = a.replaces_id := by
    rw [(notify_unfold d a).1, if_pos hpos]
  have e2 := (notify_unfold d a).2.1
  rw [e1] at e2
  have e3 : (d.notify a).2.next_id = d.next_id := by
    rw [(notify_unfold d a).2.2, if_pos hpos]
  refine ⟨e1, ?_, ?_, e3⟩
  · rw [e2]
    exact findEntry_insertEntry_self _ _ _
  · rw [e2]
    exact length_insertEntry_of_none _ _ _ hnone

/-- Witness for C3: claiming untracked id 7 on the fresh daemon. -/
theorem notify_untracked_replaces_spec_witness :
    (NotificationDaemon.new.notify
        { replaceArgs with replaces_id := 7 }).1 = 7 ∧
    (NotificationDaemon.new.notify
        { replaceArgs with replaces_id := 7 }).2.notifications.length = 1 ∧
    (NotificationDaemon.new.notify
        { replaceArgs with replaces_id := 7 }).2.next_id = 1 := by
  have h := notify_untracked_replaces_spec NotificationDaemon.new
    { replaceArgs with replaces_id := 7 } (by decide) rfl
  exact ⟨h.1, h.2.2.1, h.2.2.2⟩

/-- Claim C4: a Notify call with `replaces_id = N` where N is currently
tracked returns N, leaves the counter and the entry count unchanged, and
afterwards the record under N holds the fields supplied by this call. -/
theorem notify_tracked_replaces_spec (d : NotificationDaemon)
    (a : NotifyArgs) (n : Notification) (hpos : 0 < a.replaces_id)
    (hsome : findEntry d.notifications a.replaces_id = some n) :
    (d.notify a).1 = a.replaces_id ∧
    (d.notify a).2.next_id = d.next_id ∧
    (d.notify a).2.notifications.length = d.notifications.length ∧
    findEntry (d.notify a).2.notifications a.replaces_id =
      some { id := a.replaces_id, app_name := a.app_name,
             summary := a.summary, body := a.body, icon := a.app_icon,
             expire_timeout := a.expire_timeout } := by
  have e1 : (d.notify a).1 = a.replaces_id := by
    rw [(notify_unfold d a).1, if_pos hpos]
  have e2 := (notify_unfold d a).2.1
  rw [e1] at e2
  have e3 : (d.notify a).2.next_id = d.next_id := by
    rw [(notify_unfold d a).2.2, if_pos hpos]
  refine ⟨e1, e3, ?_, ?_⟩
  · rw [e2]
    exact length_insertEntry_of_some _ _ _ _ hsome
  · rw [e2]
    exact findEntry_insertEntry_self _ _ _

/-- Witness for C4: replacing the tracked id 3. -/
theorem notify_tracked_replaces_spec_witness :
    ((⟨[(3, sampleRecord)], 9⟩ : NotificationDaemon).notify
        { replaceArgs with replaces_id := 3 }).1 = 3 ∧
    ((⟨[(3, sampleRecord)], 9⟩ : NotificationDaemon).notify
        { replaceArgs with replaces_id := 3 }).2.next_id = 9 ∧
    ((⟨[(3, sampleRecord)], 9⟩ : NotificationDaemon).notify
        { replaceArgs with replaces_id := 3 }).2.notifications.length = 1 ∧
    findEntry ((⟨[(3, sampleRecord)], 9⟩ : NotificationDaemon).notify
        { replaceArgs with replaces_id := 3 }).2.notifications 3 =
      some { id := 3, app_name := "X", summary := "Reused id",
             body := "Body", icon := "icon", expire_timeout := -1 } := by
  have h := notify_tracked_replaces_spec ⟨[(3, sampleRecord)], 9⟩
    { replaceArgs with replaces_id := 3 } sampleRecord (by decide) rfl
  exact ⟨h.1, h.2.1, h.2.2.1, h.2.2.2⟩

/-- Claim C5: CloseNotification removes the record under N when tracked,
decreasing the count by one; a second CloseNotification(N) is then a no-op;
when N is untracked the whole state is unchanged.  Either way the handler
is total and returns normally (it is a plain function into the state). -/
theorem close_notification_spec (d : NotificationDaemon) (N : Nat)
    (hnd : (d.notifications.map Prod.fst).Nodup) :
    (∀ n, findEntry d.notifications N = some n →
      (d.close_notification N).notifications.length + 1 =
        d.notifications.length ∧
      findEntry (d.close_notification N).notifications N = none ∧
      (d.close_notification N).close_notification N =
        d.close_notification N ∧
      (d.close_notification N).next_id = d.next_id) ∧
    (findEntry d.notifications N = none → d.close_notification N = d) := by
  constructor
  · intro n hsome
    have hgone : findEntry (eraseEntry d.notifications N) N = none :=
      findEntry_eraseEntry_self _ _ hnd
    refine ⟨length_eraseEntry_of_some _ _ _ hsome, hgone, ?_, rfl⟩
    show NotificationDaemon.mk (eraseEntry (eraseEntry d.notifications N) N)
        d.next_id =
      NotificationDaemon.mk (eraseEntry d.notifications N) d.next_id
    rw [eraseEntry_of_none _ _ hgone]
  · intro hnone
    show NotificationDaemon.mk (eraseEntry d.notifications N) d.next_id = d
    rw [eraseEntry_of_none _ _ hnone]

/-- Witness for C5: closing tracked id 3 and untracked id 3. -/
theorem close_notification_spec_witness :
    (((⟨[(3, sampleRecord)], 7⟩ : NotificationDaemon).close_notification
        3).notifications.length + 1 = 1 ∧
     findEntry ((⟨[(3, sampleRecord)], 7⟩ :
        NotificationDaemon).close_notification 3).notifications 3 = none ∧
     ((⟨[(3, sampleRecord)], 7⟩ : NotificationDaemon).close_notification
        3).close_notification 3 =
       (⟨[(3, sampleRecord)], 7⟩ : NotificationDaemon).close_notification 3 ∧
     ((⟨[(3, sampleRecord)], 7⟩ : NotificationDaemon).close_notification
        3).next_id = 7) ∧
    NotificationDaemon.new.close_notification 3 = NotificationDaemon.new :=
  ⟨(close_notification_spec ⟨[(3, sampleRecord)], 7⟩ 3 (by decide)).1
      sampleRecord rfl,
   (close_notification_spec NotificationDaemon.new 3 (by decide)).2 rfl⟩

/-- Claim C6: GetCapabilities always returns exactly the ordered list
["body", "body-markup", "actions", "persistence"], independent of the
state, and handling it leaves the registry state untouched. -/
theorem get_capabilities_spec (d : NotificationDaemon) :
    d.get_capabilities = ["body", "body-markup", "actions", "persistence"] ∧
    (d.handle Request.getCapabilities).2 = d ∧
    (d.handle Request.getCapabilities).1 =
      Reply.capabilities ["body", "body-markup", "actions", "persistence"] :=
  ⟨rfl, rfl, rfl⟩

/-- Claim C7: GetServerInformation always returns the fixed 4-tuple
("Dusty", "fullzer4", "0.1.0", "1.2"), independent of the state, and
handling it leaves the registry state untouched. -/
theorem get_server_information_spec (d : NotificationDaemon) :
    d.get_server_information = ("Dusty", "fullzer4", "0.1.0", "1.2") ∧
    (d.handle Request.getServerInformation).2 = d ∧
    (d.handle Request.getServerInformation).1 =
      Reply.serverInfo ("Dusty", "fullzer4", "0.1.0", "1.2") :=
  ⟨rfl, rfl, rfl⟩

/-- Claim C8: no remote operation can return a failure to the client: for
every state and request, dispatch yields the success reply shape of that
request and never a D-Bus error reply. -/
theorem handle_never_fails (d : NotificationDaemon) (r : Request) :
    (d.handle r).1.isFailure = false ∧
    replyMatches r (d.handle r).1 = true := by
  cases r <;> exact ⟨rfl, rfl⟩

/-- Claim C10: frame property — Notify only touches the entry under its
effective id, and CloseNotification only touches the entry under its id;
every other key maps to the same record before and after. -/
theorem frame_property :
    (∀ (d : NotificationDaemon) (a : NotifyArgs) (k : Nat),
      k ≠ (d.notify a).1 →
      findEntry (d.notify a).2.notifications k =
        findEntry d.notifications k) ∧
    (∀ (d : NotificationDaemon) (N k : Nat), k ≠ N →
      findEntry (d.close_notification N).notifications k =
        findEntry d.notifications k) := by
  constructor
  · intro d a k hk
    rw [(notify_unfold d a).2.1]
    exact findEntry_insertEntry_ne _ _ _ _ hk
  · intro d N k hk
    show findEntry (eraseEntry d.notifications N) k = findEntry d.notifications k
    exact findEntry_eraseEntry_ne _ _ _ hk

/-- Witness for C10: key 5 is untouched by a Notify (effective id 1) and by
a CloseNotification(3). -/
theorem frame_property_witness :
    findEntry (NotificationDaemon.new.notify sampleArgs).2.notifications 5 =
      findEntry NotificationDaemon.new.notifications 5 ∧
    findEntry (NotificationDaemon.new.close_notification 3).notifications 5 =
      findEntry NotificationDaemon.new.notifications 5 :=
  ⟨frame_property.1 NotificationDaemon.new sampleArgs 5 (by decide),
   frame_property.2 NotificationDaemon.new 3 5 (by decide)⟩

/-- Counterexample for C2 as stated: from the reachable state produced by
one Notify with `replaces_id = 1` (registry holds key 1, counter still 1),
a single Notify with `replaces_id = 0` allocates id 1 and overwrites the
existing entry, so the entry count does not increase by one per call. -/
theorem notify_fresh_seq_counterexample :
    (∀ a ∈ [sampleArgs], a.replaces_id = 0) ∧
    (notifySeq (execTrace [Request.notifyReq replaceArgs])
        [sampleArgs]).2.notifications.length ≠
      (execTrace [Request.notifyReq replaceArgs]).notifications.length +
        [sampleArgs].length := by
  refine ⟨by decide, by decide⟩

/-- Claim C2 (amended): for a sequence of Notify calls with
`replaces_id = 0`, run from a state whose counter does not wrap during the
sequence and in which no id of the about-to-be-allocated range is already
tracked, the returned ids are as many as the calls, pairwise distinct, all
within the allocated range, and the entry count grows by one per call. -/
theorem notifySeq_fresh_spec (d : NotificationDaemon) (as : List NotifyArgs)
    (hzero : ∀ a ∈ as, a.replaces_id = 0)
    (hroom : d.next_id + as.length ≤ U32_MOD)
    (hfresh : ∀ j, d.next_id ≤ j → j < d.next_id + as.length →
      findEntry d.notifications j = none) :
    (notifySeq d as).1.length = as.length ∧
    (notifySeq d as).1.Nodup ∧
    (notifySeq d as).2.notifications.length =
      d.notifications.length + as.length ∧
    (∀ i ∈ (notifySeq d as).1,
      d.next_id ≤ i ∧ i < d.next_id + as.length) := by
  revert hzero hroom hfresh
  induction as generalizing d with
  | nil =>
    intro _ _ _
    simp [notifySeq]
  | cons a rest ih =>
    intro hzero hroom hfresh
    have h0 : a.replaces_id = 0 := hzero a (List.mem_cons_self _ _)
    have hbr : ¬ a.replaces_id > 0 := by omega
    have e1 : (d.notify a).1 = d.next_id := by
      rw [(notify_unfold d a).1, if_neg hbr]
    have e2 := (notify_unfold d a).2.1
    rw [e1] at e2
    have hlen : (a :: rest).length = rest.length + 1 := List.length_cons _ _
    have hfresh1 : findEntry d.notifications d.next_id = none :=
      hfresh d.next_id (Nat.le_refl _) (by omega)
    have hcount1 : (d.notify a).2.notifications.length =
        d.notifications.length + 1 := by
      rw [e2]
      exact length_insertEntry_of_none _ _ _ hfresh1
    by_cases hre : rest.length = 0
    · have hrn : rest = [] := List.length_eq_zero.mp hre
      subst hrn
      simp only [notifySeq, List.length_cons, List.length_nil]
      refine ⟨by trivial, List.nodup_singleton _, by omega, ?_⟩
      intro i hi
      simp only [List.mem_singleton] at hi
      subst hi
      rw [e1]
      omega
    · have hlt : d.next_id + 1 < U32_MOD := by omega
      have e3 : (d.notify a).2.next_id = d.next_id + 1 := by
        rw [(notify_unfold d a).2.2, if_neg hbr, allocate_id_next d hlt]
      obtain ⟨ih1, ih2, ih3, ih4⟩ := ih (d.notify a).2
        (fun b hb => hzero b (List.mem_cons_of_mem _ hb))
        (by rw [e3]; omega)
        (by
          intro j hj1 hj2
          rw [e3] at hj1 hj2
          rw [e2, findEntry_insertEntry_ne _ _ _ _ (by omega)]
          exact hfresh j (by omega) (by omega))
      rw [e3] at ih4
      simp only [notifySeq, List.length_cons]
      refine ⟨by rw [ih1], ?_, by rw [ih3, hcount1]; omega, ?_⟩
      · rw [List.nodup_cons]
        refine ⟨?_, ih2⟩
        intro hmem
        have := ih4 _ hmem
        rw [e1] at this
        omega
      · intro i hi
        rcases List.mem_cons.mp hi with hi | hi
        · subst hi
          rw [e1]
          omega
        · have := ih4 i hi
          omega

/-- Witness for C2 (amended): two fresh Notify calls on the new daemon
return two distinct ids and grow the registry to two entries. -/
theorem notifySeq_fresh_spec_witness :
    (notifySeq NotificationDaemon.new [sampleArgs, sampleArgs]).1.length = 2 ∧
    (notifySeq NotificationDaemon.new [sampleArgs, sampleArgs]).1.Nodup ∧
    (notifySeq NotificationDaemon.new
      [sampleArgs, sampleArgs]).2.notifications.length = 2 := by
  have h := notifySeq_fresh_spec NotificationDaemon.new
    [sampleArgs, sampleArgs] (by decide) (by decide) (fun j _ _ => rfl)
  exact ⟨h.1, h.2.1, h.2.2.1⟩

/-! ### Reachable-state invariant (C9) -/

theorem mem_insertEntry (m : List (Nat × Notification)) (k : Nat)
    (v : Notification) (p : Nat × Notification) (hp : p ∈ insertEntry m k v) :
    p = (k, v) ∨ p ∈ m := by
  induction m with
  | nil =>
    simp only [insertEntry, List.mem_singleton] at hp
    exact Or.inl hp
  | cons hd tl ih =>
    by_cases hk : hd.1 = k
    · simp only [insertEntry, if_pos hk, List.mem_cons] at hp
      rcases hp with hp | hp
      · exact Or.inl hp
      · exact Or.inr (List.mem_cons_of_mem _ hp)
    · simp only [insertEntry, if_neg hk, List.mem_cons] at hp
      rcases hp with hp | hp
      · exact Or.inr (hp ▸ List.mem_cons_self _ _)
      · rcases ih hp with h | h
        · exact Or.inl h
        · exact Or.inr (List.mem_cons_of_mem _ h)

theorem mem_eraseEntry (m : List (Nat × Notification)) (k : Nat)
    (p : Nat × Notification) (hp : p ∈ eraseEntry m k) : p ∈ m := by
  induction m with
  | nil => exact absurd hp (List.not_mem_nil _)
  | cons hd tl ih =>
    by_cases hk : hd.1 = k
    · simp only [eraseEntry, if_pos hk] at hp
      exact List.mem_cons_of_mem _ hp
    · simp only [eraseEntry, if_neg hk, List.mem_cons] at hp
      rcases hp with hp | hp
      · exact hp ▸ List.mem_cons_self _ _
      · exact List.mem_cons_of_mem _ (ih hp)

theorem keysMatchIds_handle (d : NotificationDaemon) (r : Request)
    (h : ∀ p ∈ d.notifications, p.2.id = p.1) :
    ∀ p ∈ ((d.handle r).2).notifications, p.2.id = p.1 := by
  cases r with
  | notifyReq a =>
    intro p hp
    have hmem : p ∈ (d.notify a).2.notifications := hp
    rw [(notify_unfold d a).2.1] at hmem
    rcases mem_insertEntry _ _ _ _ hmem with hpe | hpm
    · rw [hpe]
      rfl
    · exact h p hpm
  | getCapabilities => exact h
  | closeNotification id =>
    intro p hp
    exact h p (mem_eraseEntry _ _ _ hp)
  | getServerInformation => exact h

theorem keysMatchIds_foldl (reqs : List Request) (d : NotificationDaemon)
    (h : ∀ p ∈ d.notifications, p.2.id = p.1) :
    ∀ p ∈ (reqs.foldl (fun d r => (d.handle r).2) d).notifications,
      p.2.id = p.1 := by
  induction reqs generalizing d with
  | nil => exact h
  | cons r rest ih => exact ih _ (keysMatchIds_handle d r h)

/-- Claim C9: in every state reachable from the freshly constructed daemon
by a sequence of remote calls, every stored entry's key equals the `id`
field of the record stored under it. -/
theorem reachable_keys_match_ids (reqs : List Request)
    (p : Nat × Notification) (hp : p ∈ (execTrace reqs).notifications) :
    p.2.id = p.1 :=
  keysMatchIds_foldl reqs NotificationDaemon.new
    (fun q hq => absurd hq (List.not_mem_nil q)) p hp

/-- Witness for C9: the entry created by one fresh Notify has id 1 under
key 1. -/
theorem reachable_keys_match_ids_witness :
    ((1 : Nat), mkRecord 1 sampleArgs) ∈
      (execTrace [Request.notifyReq sampleArgs]).notifications ∧
    (mkRecord 1 sampleArgs).id = 1 :=
  ⟨by decide,
   reachable_keys_match_ids [Request.notifyReq sampleArgs]
     (1, mkRecord 1 sampleArgs) (by decide)⟩

/-! ### The representation invariant holds in every reachable state -/

theorem keys_mem_insertEntry (m : List (Nat × Notification)) (k : Nat)
    (v : Notification) (j : Nat)
    (hj : j ∈ (insertEntry m k v).map Prod.fst) :
    j ∈ m.map Prod.fst ∨ j = k := by
  rcases List.mem_map.mp hj with ⟨p, hp, hpe⟩
  rcases mem_insertEntry m k v p hp with h | h
  · right
    rw [← hpe, h]
  · left
    exact hpe ▸ List.mem_map_of_mem _ h

theorem nodupKeys_insertEntry (m : List (Nat × Notification)) (k : Nat)
    (v : Notification) (h : (m.map Prod.fst).Nodup) :
    ((insertEntry m k v).map Prod.fst).Nodup := by
  induction m with
  | nil => simp [insertEntry]
  | cons hd tl ih =>
    simp only [List.map_cons, List.nodup_cons] at h
    by_cases hk : hd.1 = k
    · simp only [insertEntry, if_pos hk, List.map_cons, List.nodup_cons]
      exact ⟨hk ▸ h.1, h.2⟩
    · simp only [insertEntry, if_neg hk, List.map_cons, List.nodup_cons]
      refine ⟨fun hmem => ?_, ih h.2⟩
      rcases keys_mem_insertEntry tl k v hd.1 hmem with hm | hm
      · exact h.1 hm
      · exact hk hm

theorem keys_mem_eraseEntry (m : List (Nat × Notification)) (k j : Nat)
    (hj : j ∈ (eraseEntry m k).map Prod.fst) : j ∈ m.map Prod.fst := by
  rcases List.mem_map.mp hj with ⟨p, hp, hpe⟩
  exact hpe ▸ List.mem_map_of_mem _ (mem_eraseEntry m k p hp)

theorem nodupKeys_eraseEntry (m : List (Nat × Notification)) (k : Nat)
    (h : (m.map Prod.fst).Nodup) :
    ((eraseEntry m k).map Prod.fst).Nodup := by
  induction m with
  | nil => simp [eraseEntry]
  | cons hd tl ih =>
    simp only [List.map_cons, List.nodup_cons] at h
    by_cases hk : hd.1 = k
    · simp only [eraseEntry, if_pos hk]
      exact h.2
    · simp only [eraseEntry, if_neg hk, List.map_cons, List.nodup_cons]
      exact ⟨fun hmem => h.1 (keys_mem_eraseEntry tl k hd.1 hmem), ih h.2⟩

theorem goodState_handle (d : NotificationDaemon) (r : Request)
    (h : GoodState d) : GoodState ((d.handle r).2) := by
  obtain ⟨h1, h2, h3, h4⟩ := h
  cases r with
  | notifyReq a =>
    show GoodState (d.notify a).2
    have hid : 1 ≤ (d.notify a).1 := by
      rw [(notify_unfold d a).1]
      by_cases hb : a.replaces_id > 0
      · rw [if_pos hb]
        omega
      · rw [if_neg hb]
        exact h1
    have hcnt : 1 ≤ (d.notify a).2.next_id ∧
        (d.notify a).2.next_id < U32_MOD := by
      rw [(notify_unfold d a).2.2]
      by_cases hb : a.replaces_id > 0
      · rw [if_pos hb]
        exact ⟨h1, h2⟩
      · rw [if_neg hb]
        have he : (d.allocate_id).2.next_id =
            if (d.next_id + 1) % U32_MOD = 0 then 1
            else (d.next_id + 1) % U32_MOD := rfl
        have hU : U32_MOD = 4294967296 := rfl
        have hm : (d.next_id + 1) % U32_MOD < U32_MOD :=
          Nat.mod_lt _ (by omega)
        rw [he]
        split
        · omega
        · omega
    refine ⟨hcnt.1, hcnt.2, ?_, ?_⟩
    · rw [(notify_unfold d a).2.1]
      exact nodupKeys_insertEntry _ _ _ h3
    · intro p hp
      have hmem : p ∈ (d.notify a).2.notifications := hp
      rw [(notify_unfold d a).2.1] at hmem
      rcases mem_insertEntry _ _ _ _ hmem with hpe | hpm
      · rw [hpe]
        exact hid
      · exact h4 p hpm
  | getCapabilities => exact ⟨h1, h2, h3, h4⟩
  | closeNotification id =>
    exact ⟨h1, h2, nodupKeys_eraseEntry _ _ h3,
      fun p hp => h4 p (mem_eraseEntry _ _ _ hp)⟩
  | getServerInformation => exact ⟨h1, h2, h3, h4⟩

theorem goodState_foldl (reqs : List Request) (d : NotificationDaemon)
    (h : GoodState d) :
    GoodState (reqs.foldl (fun d r => (d.handle r).2) d) := by
  induction reqs generalizing d with
  | nil => exact h
  | cons r rest ih => exact ih _ (goodState_handle d r h)

/-- Every reachable state keeps the counter in `[1, 2^32)` and the map's
keys unique and nonzero: the hypotheses used for C1, C4 and C5 hold in
every state the daemon can actually reach. -/
theorem reachable_goodState (reqs : List Request) :
    GoodState (execTrace reqs) :=
  goodState_foldl reqs NotificationDaemon.new
    ⟨Nat.le_refl 1, by decide, List.nodup_nil, fun p hp =>
      absurd hp (List.not_mem_nil p)⟩

end Dusty
